import Mathlib

/-!
Verification of the ValutaTrade Hub currency-trading simulator.

This file shallowly embeds the Python source of the repository
(`valutatrade_hub`): the rates read path (`RatesService.get_rate`,
`RatesService.is_cache_fresh`, `RatesService._load_rates`), the updater
(`RatesUpdater.run_update` with `RatesStorage`), the domain models
(`Wallet`, `Portfolio.view`), the persistence layer relevant to
registration (`DBManager.create_user`, `DBManager.create_portfolio`) and
the use cases (`UseCases.buy`, `UseCases.sell`, `UseCases.register`,
`UseCases.show_portfolio`).

Conventions of the embedding:
* Python floats are modelled as rationals (`ℚ`); `1 / x` in Python raises
  `ZeroDivisionError` for `x = 0`, which is modelled explicitly.
* Timestamps (ISO-8601 strings parsed to `datetime` in the source) are
  modelled as integers `Int` on an abstract time axis; `timedelta`
  comparison `now - t < ttl` is integer comparison.
* Python `dict`s are modelled as association lists with last-write-wins
  assignment (`alSet`), which matches `dict` lookup semantics.
* A raised Python exception is an `Except`-error value; a method that
  mutates its object before raising is modelled in state-passing style,
  returning the post-mutation state next to the error.
* Python dynamic-typing failures that the source can actually reach are
  modelled explicitly (`typeError`, `attributeError`): `x in None` raises
  `TypeError`, attribute lookup of `get` on a `float` raises
  `AttributeError`, and calling the absent method `Portfolio.add_currency`
  raises `AttributeError`.
-/

namespace ValutaTrade

/-- Errors raised by the Python source.  Each constructor corresponds to one
`raise` site (the exception class and message are noted in comments). -/
inductive VErr where
  /-- Models `ValueError("Имя не может быть пустым")` in `User.username` setter. -/
  | usernameEmpty : VErr
  /-- Models `ValueError("Неверный формат password")` in `User._validate_pword`. -/
  | passwordFormat : VErr
  /-- Models `ValueError(f"Пользователь ... уже зарегистрирован ...")` in
  `DBManager.create_user`. -/
  | usernameTaken (username : String) : VErr
  /-- Models `ValueError("Сначала нужно зарегистрироваться")` in `UseCases.buy`,
  `UseCases.sell`. -/
  | notLoggedIn : VErr
  /-- Models `ValueError("Сначала выполните login")` in `UseCases.show_portfolio`. -/
  | loginRequired : VErr
  /-- Models `ValueError(f"... - базовая валюта, ее нельзя купить/продать ...")`. -/
  | cannotTradeBase (code : String) : VErr
  /-- Models `ValueError("... должен быть положительным числом") for amount`. -/
  | nonPositiveAmount : VErr
  /-- Models `ValueError("Портфель пуст")` in `UseCases.show_portfolio`. -/
  | emptyPortfolio : VErr
  /-- Models `CurrencyNotFoundError(code)` raised by `get_currency`. -/
  | currencyNotFound (code : String) : VErr
  /-- Models `WalletNotFoundError(currency)` raised in `UseCases.sell`. -/
  | walletNotFound (code : String) : VErr
  /-- Models `ValueError(f"Кошелёк ... не найден")` in `Portfolio.get_wallet`. -/
  | walletMissing (code : String) : VErr
  /-- Models `ApiRequestError(f"Курс ..->.. недоступен")` in
  `RatesService.get_rate` with the two codes interpolated. -/
  | rateUnavailable (fromC toC : String) : VErr
  /-- Models `ApiRequestError("Курс недоступен: кеш устарел")` in
  `RatesService.get_rate`. -/
  | staleCache : VErr
  /-- Models `ValueError("Баланс не может быть меньше 0")` in the `Wallet.balance`
  setter. -/
  | balanceNegative : VErr
  /-- Models `ValueError("Нельзя положить отрицательное количество денег")` in
  `Wallet.deposit`. -/
  | depositNonPositive : VErr
  /-- Models `ValueError("Сумма снятие не может быть меньше или равна 0")` in
  `Wallet.withdraw`. -/
  | withdrawNonPositive : VErr
  /-- Models `InsufficientFundsError(available, code, required)` in
  `Wallet.withdraw`. -/
  | insufficientFunds (available : ℚ) (code : String) (required : ℚ) : VErr
  /-- Python `TypeError`: membership test `key not in rates` with
  `rates = None`. -/
  | typeError : VErr
  /-- Python `AttributeError`: attribute lookup on an object lacking the
  attribute (`float.get`, `Portfolio.add_currency`). -/
  | attributeError : VErr
  /-- Python `ZeroDivisionError` from `1 / rate` with `rate == 0`. -/
  | zeroDivisionError : VErr
deriving DecidableEq, Repr

/-- Decidable equality for `Except`, used to evaluate the embedding on
concrete inputs. -/
instance exceptDecidableEq {ε α : Type} [DecidableEq ε] [DecidableEq α] :
    DecidableEq (Except ε α) := fun x y =>
  match x, y with
  | .ok a, .ok b =>
      if h : a = b then .isTrue (by rw [h]) else .isFalse (by simp [h])
  | .error a, .error b =>
      if h : a = b then .isTrue (by rw [h]) else .isFalse (by simp [h])
  | .ok _, .error _ => .isFalse (by simp)
  | .error _, .ok _ => .isFalse (by simp)

/-! ### Association lists as Python dicts -/

/-- Lookup in an association list; models Python `d.get(k)` / `k in d`. -/
def alGet {α : Type} : List (String × α) → String → Option α
  | [], _ => none
  | (k, v) :: tl, k' => if k' = k then some v else alGet tl k'

/-- Assignment `d[k] = v` on a Python dict: replaces the value of an
existing key in place, otherwise appends the new key. -/
def alSet {α : Type} : List (String × α) → String → α → List (String × α)
  | [], k, v => [(k, v)]
  | (k', v') :: tl, k, v =>
      if k = k' then (k, v) :: tl else (k', v') :: alSet tl k v

/-! ### Rates data model -/

/-- One `"FROM_TO"` entry of the rates snapshot:
`{"rate": float, "updated_at": ISO string, "source": str}`.  A missing or
empty `updated_at` field is `none` (treated as stale by
`is_cache_fresh`). -/
structure RateEntry where
  rate : ℚ
  updated_at : Option Int
  source : String
deriving DecidableEq, Repr

/-- The JSON document stored in `rates.json`.  `pairs = none` models a
document without a `"pairs"` key — exactly what `DBManager._load` writes on
cold start (the default for `StorageModel.RATES` is the empty object). -/
structure RatesDoc where
  pairs : Option (List (String × RateEntry))
  last_refresh : Option Int
deriving DecidableEq, Repr

/-- Models `DBManager.load_rates` through `DBManager._load`: a missing file is
replaced by the registered default `{}` (no `"pairs"`, no
`"last_refresh"`), so `FileNotFoundError` is never raised for rates. -/
def dbLoadRates (file : Option RatesDoc) : RatesDoc :=
  file.getD ⟨none, none⟩

/-- Models `RatesService.is_cache_fresh`: an entry is fresh when its own
`updated_at` exists and `now - updated_at < cache_ttl`. -/
def isCacheFresh (ttl now : Int) (e : RateEntry) : Bool :=
  match e.updated_at with
  | none => false
  | some t => now - t < ttl

/-- Models `RatesService.get_rate`.  Identity conversion returns `1.0` before any
storage access; then `rates = self._load_rates().get("pairs")` (a `None`
result makes the following membership test raise `TypeError`); then the
direct key `FROM_TO` and the reverse key `TO_FROM` are checked; the found
entry (direct preferred) is freshness-checked; finally the direct rate or
the inverse of the reverse rate is returned. -/
def getRate (ttl now : Int) (file : Option RatesDoc) (fromC toC : String) :
    Except VErr ℚ :=
  if fromC = toC then .ok 1
  else
    match (dbLoadRates file).pairs with
    | none => .error .typeError
    | some rates =>
        let key := fromC ++ "_" ++ toC
        let reverseKey := toC ++ "_" ++ fromC
        match alGet rates key, alGet rates reverseKey with
        | none, none => .error (.rateUnavailable fromC toC)
        | some e, _ =>
            if isCacheFresh ttl now e then .ok e.rate else .error .staleCache
        | none, some e =>
            if isCacheFresh ttl now e then
              if e.rate = 0 then .error .zeroDivisionError
              else .ok (1 / e.rate)
            else .error .staleCache

/-! ### Currency registry (`core/currencies.py`)

The registry maps codes to `Currency` objects; the use cases consume only
the `code` attribute of the returned object, so the registry is modelled by
its key list and `get_currency` returns the code. -/

/-- Keys of `_CURRENCY_REGISTRY`. -/
def currencyRegistry : List String :=
  ["RUB", "CNY", "USD", "EUR", "BTC", "ETH", "SOL"]

/-- Models `get_currency`: registry lookup, raising `CurrencyNotFoundError`
on a missing code.  (The `isinstance(code, str)` guard is enforced by
typing.) -/
def getCurrency (code : String) : Except VErr String :=
  if code ∈ currencyRegistry then .ok code else .error (.currencyNotFound code)

/-! ### Wallet (`core/models.py`)

Methods that mutate `self` return the post-state next to the outcome: the
source performs all validation before the single balance mutation, so on an
error the returned wallet equals the input. -/

/-- Models the `Wallet` class: a currency code and a balance. -/
structure Wallet where
  currency_code : String
  balance : ℚ
deriving DecidableEq, Repr

/-- Models the `Wallet.balance` setter: rejects a negative value.  (The
`isinstance` check is enforced by typing.) -/
def Wallet.setBalance (w : Wallet) (value : ℚ) : Wallet × Except VErr Unit :=
  if value < 0 then (w, .error .balanceNegative)
  else ({ w with balance := value }, .ok ())

/-- Models `Wallet.deposit`: rejects a non-positive amount, otherwise adds
it to the balance. -/
def Wallet.deposit (w : Wallet) (amount : ℚ) : Wallet × Except VErr Unit :=
  if amount ≤ 0 then (w, .error .depositNonPositive)
  else ({ w with balance := w.balance + amount }, .ok ())

/-- Models `Wallet.withdraw`: rejects a non-positive amount, raises
`InsufficientFundsError` when the amount exceeds the balance, otherwise
subtracts. -/
def Wallet.withdraw (w : Wallet) (amount : ℚ) : Wallet × Except VErr Unit :=
  if amount ≤ 0 then (w, .error .withdrawNonPositive)
  else if w.balance < amount then
    (w, .error (.insufficientFunds w.balance w.currency_code amount))
  else ({ w with balance := w.balance - amount }, .ok ())

/-! ### Portfolio and the buy/sell/show use cases

A portfolio is its dict of wallets, `currency_code ↦ balance`
(`Portfolio._wallets`; the `Wallet` object of an entry is
`⟨code, balance⟩`).  Wallet objects obtained from the portfolio alias its
entries, so every wallet mutation is written back into the map. -/

/-- Wallet map of a portfolio: `currency_code ↦ balance`. -/
abbrev PMap := List (String × ℚ)

/-- Models `Portfolio.get_or_create_wallet` (via `add_wallet` with the
default balance `0.0` when the wallet is absent). -/
def getOrCreateWallet (p : PMap) (code : String) : PMap :=
  if (alGet p code).isSome then p else alSet p code 0

/-- Outcome dict of `UseCases.buy` / `UseCases.sell`. -/
structure TradeResult where
  currency : String
  before : ℚ
  after : ℚ
  rate : ℚ
  cost : ℚ
deriving DecidableEq, Repr

/-- Models `UseCases.buy`.  Validation, then the rate lookup, then wallet
creation, then `usd_wallet.withdraw(cost_usd)` and `wallet.deposit(amount)`.
Returns the in-memory portfolio after the call (also on error) next to the
outcome. -/
def buy (loggedIn : Bool) (base : String) (ttl now : Int)
    (ratesFile : Option RatesDoc) (p : PMap) (currency : String) (amount : ℚ) :
    PMap × Except VErr TradeResult :=
  if ¬ loggedIn then (p, .error .notLoggedIn)
  else if currency = base then (p, .error (.cannotTradeBase currency))
  else if amount ≤ 0 then (p, .error .nonPositiveAmount)
  else
    match getCurrency currency with
    | .error e => (p, .error e)
    | .ok code =>
        match getRate ttl now ratesFile code base with
        | .error e => (p, .error e)
        | .ok rate =>
            let cost := amount * rate
            let p1 := getOrCreateWallet p base
            let p2 := getOrCreateWallet p1 code
            let before := (alGet p2 code).getD 0
            let usdWallet : Wallet := ⟨base, (alGet p2 base).getD 0⟩
            match usdWallet.withdraw cost with
            | (w, .error e) => (alSet p2 base w.balance, .error e)
            | (w, .ok _) =>
                let p3 := alSet p2 base w.balance
                let wallet : Wallet := ⟨code, (alGet p3 code).getD 0⟩
                match wallet.deposit amount with
                | (w2, .error e) => (alSet p3 code w2.balance, .error e)
                | (w2, .ok _) =>
                    let p4 := alSet p3 code w2.balance
                    (p4, .ok ⟨code, before, w2.balance, rate, cost⟩)

/-- Models `UseCases.sell`.  Validation, then `wallet.withdraw(amount)` on
the sold currency, and only afterwards the rate lookup and
`usd_wallet.deposit(cost)`.  Returns the in-memory portfolio after the call
(also on error) next to the outcome. -/
def sell (loggedIn : Bool) (base : String) (ttl now : Int)
    (ratesFile : Option RatesDoc) (p : PMap) (currency : String) (amount : ℚ) :
    PMap × Except VErr TradeResult :=
  if ¬ loggedIn then (p, .error .notLoggedIn)
  else if currency = base then (p, .error (.cannotTradeBase currency))
  else if amount ≤ 0 then (p, .error .nonPositiveAmount)
  else
    match getCurrency currency with
    | .error e => (p, .error e)
    | .ok code =>
        if (alGet p code).isNone then (p, .error (.walletNotFound code))
        else if (alGet p base).isNone then (p, .error (.walletMissing base))
        else
          let before := (alGet p code).getD 0
          let wallet : Wallet := ⟨code, before⟩
          match wallet.withdraw amount with
          | (w, .error e) => (alSet p code w.balance, .error e)
          | (w, .ok _) =>
              let p1 := alSet p code w.balance
              match getRate ttl now ratesFile code base with
              | .error e => (p1, .error e)
              | .ok rate =>
                  let cost := amount * rate
                  let usdWallet : Wallet := ⟨base, (alGet p1 base).getD 0⟩
                  match usdWallet.deposit cost with
                  | (w2, .error e) => (alSet p1 base w2.balance, .error e)
                  | (w2, .ok _) =>
                      let p2 := alSet p1 base w2.balance
                      (p2, .ok ⟨code, before, w.balance, rate, cost⟩)

/-- Models the Python attribute lookup `rate_float.get`: `RatesService.
get_rate` returns a `float`, and `float` has no attribute `get`, so the
call in `Portfolio.view` raises `AttributeError` whatever the argument. -/
def floatGet (_x : ℚ) (_key : String) : Except VErr ℚ :=
  .error .attributeError

/-- Models `Portfolio.view`: for every wallet it computes
`rates_service.get_rate(wallet.currency_code, base).get("rate")`, converts
the balance and accumulates the total. -/
def portfolioView (ttl now : Int) (ratesFile : Option RatesDoc) (p : PMap)
    (base : String) : Except VErr (List (String × ℚ × ℚ) × ℚ) :=
  p.foldlM
    (fun acc w => do
      let r ← getRate ttl now ratesFile w.1 base
      let rate ← floatGet r "rate"
      let converted := w.2 * rate
      pure (acc.1 ++ [(w.1, w.2, converted)], acc.2 + converted))
    ([], 0)

/-- Models `UseCases.show_portfolio`: base defaulting, login check,
non-empty check, currency validation, then `Portfolio.view`. -/
def showPortfolio (loggedIn : Bool) (defaultBase : String) (ttl now : Int)
    (ratesFile : Option RatesDoc) (p : PMap) (base? : Option String) :
    Except VErr (List (String × ℚ × ℚ) × ℚ) :=
  let base := base?.getD defaultBase
  if ¬ loggedIn then .error .loginRequired
  else if p.isEmpty then .error .emptyPortfolio
  else
    match getCurrency base with
    | .error e => .error e
    | .ok code => portfolioView ttl now ratesFile p code

/-! ### Parser service: storage and updater
(`parser_service/storage.py`, `parser_service/updater.py`) -/

/-- Models one record built by `RatesUpdater._build_history_records`.  The
source unpacks `pair.split("_")` into the two codes; every pair produced by
the configured clients has exactly one underscore. -/
structure HistoryRecord where
  id : String
  from_currency : String
  to_currency : String
  rate : ℚ
  timestamp : Int
  source : String
deriving DecidableEq, Repr

/-- Models `RatesUpdater._build_history_records`. -/
def buildHistoryRecords (rates : List (String × ℚ)) (source : String)
    (timestamp : Int) : List HistoryRecord :=
  rates.map fun pr =>
    let parts := pr.1.splitOn "_"
    { id := pr.1 ++ "_" ++ toString timestamp
      from_currency := parts.headD ""
      to_currency := (parts.drop 1).headD ""
      rate := pr.2
      timestamp := timestamp
      source := source }

/-- Models the on-disk state the updater touches: the rates snapshot file
(`none` when absent) and the history file content. -/
structure StoreState where
  ratesFile : Option RatesDoc
  history : List HistoryRecord
deriving DecidableEq, Repr

/-- Models `RatesStorage.load_rates`: a missing file yields
`{"pairs": {}, "last_refresh": None}`. -/
def storageLoadRates (file : Option RatesDoc) : RatesDoc :=
  file.getD ⟨some [], none⟩

/-- Outcome of one client `fetch_rates()` call inside the update cycle: an
`ApiRequestError` reason, or the `SOURCE` tag with the standardized
`pair ↦ rate` dict (its `meta` fields are not consumed by the updater
beyond the history `meta`, which is dropped here). -/
abbrev ClientResult := Except String (String × List (String × ℚ))

/-- Loop body of `RatesUpdater.run_update` for one client: an
`ApiRequestError` is caught and skipped, a success stamps every returned
pair with the cycle timestamp and its source into `combined_rates` and
extends the history records. -/
def updStep (ts : Int) (acc : List (String × RateEntry) × List HistoryRecord)
    (c : ClientResult) : List (String × RateEntry) × List HistoryRecord :=
  match c with
  | .error _ => acc
  | .ok (src, rates) =>
      (rates.foldl (fun m pr => alSet m pr.1 ⟨pr.2, some ts, src⟩) acc.1,
       acc.2 ++ buildHistoryRecords rates src ts)

/-- Models `RatesUpdater.run_update`.  All clients are polled into
`combined_rates` and `history_records`; an empty `combined_rates` is a
no-op; otherwise the existing snapshot is loaded, `existing_pairs.update(
combined_rates)` merges the cycle results over it, the merged snapshot is
saved with `last_refresh` set to the cycle timestamp, and non-empty history
records are appended. -/
def runUpdate (clients : List ClientResult) (ts : Int) (st : StoreState) :
    StoreState :=
  let cr := clients.foldl (updStep ts) ([], [])
  if cr.1.isEmpty then st
  else
    let existing := storageLoadRates st.ratesFile
    let existingPairs := existing.pairs.getD []
    let merged := cr.1.foldl (fun m kv => alSet m kv.1 kv.2) existingPairs
    { ratesFile := some ⟨some merged, some ts⟩
      history := if cr.2.isEmpty then st.history else st.history ++ cr.2 }

/-! ### Users, persistence and registration
(`infra/database.py`, `UseCases.register`) -/

/-- Models a stored user record.  `salt`, `hashed_password` and
`registration_date` (random salt, salted hash, wall clock) are not consumed
by any claim and are omitted; the duplicate check and id assignment in
`DBManager.create_user` read only `username` and `user_id`. -/
structure UserRec where
  user_id : Nat
  username : String
deriving DecidableEq, Repr

/-- Models the users and portfolios JSON lists managed by `DBManager`. -/
structure DB where
  users : List UserRec
  portfolios : List (Nat × PMap)
deriving DecidableEq, Repr

/-- Models Python `str.strip()`: drops leading and trailing whitespace
characters (the validated usernames and passwords contain only ASCII, for
which `Char.isWhitespace` matches Python whitespace). -/
def pyStrip (s : String) : String :=
  String.mk
    (((s.data.dropWhile Char.isWhitespace).reverse.dropWhile
      Char.isWhitespace).reverse)

/-- Models `DBManager.create_user`: duplicate-username check, next id as
`max(ids, default=0) + 1`, then `User.__init__` validation (non-blank
username, password of stripped length at least 4), then append and save. -/
def createUser (db : DB) (username password : String) :
    DB × Except VErr UserRec :=
  if db.users.any (fun u => u.username = username) then
    (db, .error (.usernameTaken username))
  else
    let nextId := (db.users.map (fun u => u.user_id)).foldl max 0 + 1
    if pyStrip username = "" then (db, .error .usernameEmpty)
    else if (pyStrip password).length < 4 then (db, .error .passwordFormat)
    else
      let u : UserRec := ⟨nextId, username⟩
      ({ db with users := db.users ++ [u] }, .ok u)

/-- Models `DBManager.create_portfolio`: appends unless a portfolio for the
user id already exists. -/
def createPortfolio (db : DB) (uid : Nat) (pf : PMap) : DB :=
  if db.portfolios.any (fun p => p.1 = uid) then db
  else { db with portfolios := db.portfolios ++ [(uid, pf)] }

/-- Models the call `new_portfolio.add_currency(...)` in
`UseCases.register`: the `Portfolio` class defines `add_wallet` but no
`add_currency`, so Python attribute lookup raises `AttributeError` before
any wallet is added. -/
def portfolioAddCurrency (_p : PMap) (_code : String) (_initBalance : ℚ) :
    Except VErr PMap :=
  .error .attributeError

/-- Models `UseCases.register`: `create_user`, then a fresh portfolio with
`add_currency(base, init_balance=100.00)`, then `create_portfolio`. -/
def register (base : String) (db : DB) (username password : String) :
    DB × Except VErr UserRec :=
  match createUser db username password with
  | (db1, .error e) => (db1, .error e)
  | (db1, .ok u) =>
      match portfolioAddCurrency [] base 100 with
      | .error e => (db1, .error e)
      | .ok pf => (createPortfolio db1 u.user_id pf, .ok u)

/-! ## Theorems -/

/-! ### Dict (association list) lemmas -/

theorem alGet_alSet_self {α : Type} (m : List (String × α)) (k : String) (v : α) :
    alGet (alSet m k v) k = some v := by
  induction m with
  | nil => simp [alGet, alSet]
  | cons hd tl ih =>
      obtain ⟨k', v'⟩ := hd
      by_cases h : k = k' <;> simp [alGet, alSet, h, ih]

theorem alGet_alSet_ne {α : Type} (m : List (String × α)) (k k' : String) (v : α)
    (h : k' ≠ k) : alGet (alSet m k v) k' = alGet m k' := by
  induction m with
  | nil => simp [alGet, alSet, h]
  | cons hd tl ih =>
      obtain ⟨k₀, v₀⟩ := hd
      by_cases h0 : k = k₀
      · subst h0; simp [alGet, alSet, h]
      · by_cases h1 : k' = k₀ <;> simp [alGet, alSet, h0, h1, ih]


/-- C8: for every currency code `X`, `get_rate(X, X)` returns `1.0` without
consulting storage — in particular for every state of the rates file,
including a missing file and a snapshot without an entry for `X`. -/
theorem getRate_identity (ttl now : Int) (file : Option RatesDoc)
    (x : String) : getRate ttl now file x x = .ok 1 := by
  simp [getRate]

/-- C10: on cold start (no rates file), `get_rate(A, B)` for distinct `A`,
`B` does not fail with the rate-unavailable domain error: `DBManager._load`
substitutes the default `{}` (without a `"pairs"` key) for the missing
file, so the membership test `key not in rates` runs on `None` and raises
`TypeError`. -/
theorem getRate_coldStart_typeError (ttl now : Int) (f t : String)
    (hft : f ≠ t) : getRate ttl now none f t = .error .typeError := by
  simp [getRate, dbLoadRates, hft]

/-- Witness for `getRate_coldStart_typeError` at `A = "BTC"`, `B = "USD"`,
TTL 300, current time 100. -/
theorem getRate_coldStart_typeError_w :
    getRate 300 100 none "BTC" "USD" = .error .typeError :=
  getRate_coldStart_typeError 300 100 "BTC" "USD" (by decide)

/-- C5: for distinct codes, `get_rate` fails with the rate-unavailable
error exactly when neither the direct key `FROM_TO` nor the reverse key
`TO_FROM` exists in the snapshot; a found entry (`rates.get(key) or
rates.get(reverse_key)`) that is stale gives the distinct stale-cache
error; a fresh entry (with the positive-rate data invariant, so that the
inverse exists) yields a rate. -/
theorem getRate_error_classification (ttl now : Int) (doc : RatesDoc)
    (m : List (String × RateEntry)) (f t : String) (hft : f ≠ t)
    (hp : doc.pairs = some m) :
    (getRate ttl now (some doc) f t = .error (.rateUnavailable f t) ↔
      alGet m (f ++ "_" ++ t) = none ∧ alGet m (t ++ "_" ++ f) = none) ∧
    (∀ e, (alGet m (f ++ "_" ++ t)).or (alGet m (t ++ "_" ++ f)) = some e →
      (isCacheFresh ttl now e = false →
        getRate ttl now (some doc) f t = .error .staleCache) ∧
      (isCacheFresh ttl now e = true → 0 < e.rate →
        ∃ r, getRate ttl now (some doc) f t = .ok r)) := by
  rcases hk : alGet m (f ++ "_" ++ t) with _ | e1 <;>
    rcases hrk : alGet m (t ++ "_" ++ f) with _ | e2
  · simp [getRate, dbLoadRates, hft, hp, hk, hrk]
  · refine ⟨?_, ?_⟩
    · simp only [getRate, dbLoadRates, Option.getD_some, hft, if_neg, hp,
        hk, hrk]
      split_ifs <;> simp
    · rintro e he
      have he2 : e2 = e := by simpa [hk] using he
      subst he2
      constructor
      · intro hstale
        simp [getRate, dbLoadRates, hft, hp, hk, hrk, hstale]
      · intro hfresh hpos
        exact ⟨1 / e2.rate,
          by simp [getRate, dbLoadRates, hft, hp, hk, hrk, hfresh, hpos.ne']⟩
  · refine ⟨?_, ?_⟩
    · simp only [getRate, dbLoadRates, Option.getD_some, hft, if_neg, hp,
        hk, hrk]
      split_ifs <;> simp
    · rintro e he
      have he1 : e1 = e := by simpa [hk] using he
      subst he1
      constructor
      · intro hstale
        simp [getRate, dbLoadRates, hft, hp, hk, hrk, hstale]
      · intro hfresh _
        exact ⟨e1.rate,
          by simp [getRate, dbLoadRates, hft, hp, hk, hrk, hfresh]⟩
  · refine ⟨?_, ?_⟩
    · simp only [getRate, dbLoadRates, Option.getD_some, hft, if_neg, hp,
        hk, hrk]
      split_ifs <;> simp
    · rintro e he
      have he1 : e1 = e := by simpa [hk] using he
      subst he1
      constructor
      · intro hstale
        simp [getRate, dbLoadRates, hft, hp, hk, hrk, hstale]
      · intro hfresh _
        exact ⟨e1.rate,
          by simp [getRate, dbLoadRates, hft, hp, hk, hrk, hfresh]⟩

/-- Witness for `getRate_error_classification`: snapshot holding only
`BTC_USD` (rate 50000, fresh at TTL 300, now 100); the pair
`BTC -> EUR` is reported unavailable. -/
theorem getRate_error_classification_w :
    getRate 300 100
        (some ⟨some [("BTC_USD", ⟨50000, some 50, "CoinGecko"⟩)], some 50⟩)
        "BTC" "EUR" = .error (.rateUnavailable "BTC" "EUR") :=
  (getRate_error_classification 300 100
    ⟨some [("BTC_USD", ⟨50000, some 50, "CoinGecko"⟩)], some 50⟩
    [("BTC_USD", ⟨50000, some 50, "CoinGecko"⟩)] "BTC" "EUR"
    (by decide) rfl).1.mpr (by decide)

/-- C6: when exactly one direction of a pair of distinct codes is stored
and that entry is fresh (and positive, per the data invariant
`rate > 0`), the stored direction is returned as-is and the other
direction is its multiplicative inverse:
`get_rate(A, B) = 1 / get_rate(B, A)`. -/
theorem getRate_inverse (ttl now : Int) (doc : RatesDoc)
    (m : List (String × RateEntry)) (f t : String) (e : RateEntry)
    (hft : f ≠ t) (hp : doc.pairs = some m)
    (hone : (alGet m (f ++ "_" ++ t) = some e ∧
              alGet m (t ++ "_" ++ f) = none) ∨
            (alGet m (f ++ "_" ++ t) = none ∧
              alGet m (t ++ "_" ++ f) = some e))
    (hfresh : isCacheFresh ttl now e = true) (hpos : 0 < e.rate) :
    ∃ r, getRate ttl now (some doc) t f = .ok r ∧
      getRate ttl now (some doc) f t = .ok (1 / r) := by
  rcases hone with ⟨h1, h2⟩ | ⟨h1, h2⟩
  · refine ⟨1 / e.rate, ?_, ?_⟩
    · simp [getRate, dbLoadRates, hft.symm, hp, h1, h2, hfresh, hpos.ne']
    · simp [getRate, dbLoadRates, hft, hp, h1, h2, hfresh, one_div_one_div]
  · refine ⟨e.rate, ?_, ?_⟩
    · simp [getRate, dbLoadRates, hft.symm, hp, h1, h2, hfresh]
    · simp [getRate, dbLoadRates, hft, hp, h1, h2, hfresh, hpos.ne']

/-- Witness for `getRate_inverse`: only `BTC_USD = 50000` is stored and
fresh; `get_rate("USD", "BTC")` is its inverse `1/50000` and
`get_rate("BTC", "USD")` is `1 / (1/50000)`. -/
theorem getRate_inverse_w :
    ∃ r, getRate 300 100
        (some ⟨some [("BTC_USD", ⟨50000, some 50, "CoinGecko"⟩)], some 50⟩)
        "USD" "BTC" = .ok r ∧
      getRate 300 100
        (some ⟨some [("BTC_USD", ⟨50000, some 50, "CoinGecko"⟩)], some 50⟩)
        "BTC" "USD" = .ok (1 / r) :=
  getRate_inverse 300 100
    ⟨some [("BTC_USD", ⟨50000, some 50, "CoinGecko"⟩)], some 50⟩
    [("BTC_USD", ⟨50000, some 50, "CoinGecko"⟩)] "BTC" "USD"
    ⟨50000, some 50, "CoinGecko"⟩ (by decide) rfl (.inl (by decide))
    (by decide) (by norm_num)

/-- C9: every `Wallet` operation preserves `balance ≥ 0`: the balance
setter rejects a negative value, `deposit` rejects a non-positive amount,
`withdraw` rejects a non-positive amount and raises the insufficient-funds
error when the amount exceeds the balance; every rejecting case returns
the wallet unchanged, and the resulting balance is never negative. -/
theorem wallet_nonneg_invariant (w : Wallet) (v a b : ℚ)
    (hw : 0 ≤ w.balance) :
    (v < 0 → w.setBalance v = (w, .error .balanceNegative)) ∧
    0 ≤ (w.setBalance v).1.balance ∧
    (a ≤ 0 → w.deposit a = (w, .error .depositNonPositive)) ∧
    0 ≤ (w.deposit a).1.balance ∧
    (b ≤ 0 → w.withdraw b = (w, .error .withdrawNonPositive)) ∧
    (0 < b → w.balance < b →
      w.withdraw b = (w, .error (.insufficientFunds w.balance
        w.currency_code b))) ∧
    0 ≤ (w.withdraw b).1.balance := by
  refine ⟨?_, ?_, ?_, ?_, ?_, ?_, ?_⟩
  · intro hv; simp [Wallet.setBalance, hv]
  · by_cases hv : v < 0
    · simp [Wallet.setBalance, hv, hw]
    · simp [Wallet.setBalance, hv, le_of_not_lt hv]
  · intro ha; simp [Wallet.deposit, ha]
  · by_cases ha : a ≤ 0
    · simp [Wallet.deposit, ha, hw]
    · have : 0 ≤ w.balance + a := by linarith [lt_of_not_le ha]
      simp [Wallet.deposit, ha, this]
  · intro hb; simp [Wallet.withdraw, hb]
  · intro hb hbal
    simp [Wallet.withdraw, not_le.mpr hb, hbal]
  · by_cases hb : b ≤ 0
    · simp [Wallet.withdraw, hb, hw]
    · by_cases hbal : w.balance < b
      · simp [Wallet.withdraw, hb, hbal, hw]
      · have : 0 ≤ w.balance - b := by linarith [le_of_not_lt hbal]
        simp [Wallet.withdraw, hb, hbal, this]

/-- Witness for `wallet_nonneg_invariant`: a USD wallet holding 5;
withdrawing 7 fails with the insufficient-funds error and leaves the
wallet unchanged. -/
theorem wallet_nonneg_invariant_w :
    Wallet.withdraw ⟨"USD", 5⟩ 7 =
      (⟨"USD", 5⟩, .error (.insufficientFunds 5 "USD" 7)) :=
  (wallet_nonneg_invariant ⟨"USD", 5⟩ 0 0 7 (by norm_num)).2.2.2.2.2.1
    (by norm_num) (by norm_num)

/-- C1 (on the code as written): in `buy`, the rate lookup and the
funds check do precede the balance mutations — the specified scenario
(base balance 100, `buy("BTC", 10)` at rate 50000) fails with the
insufficient-funds error and leaves every balance unchanged (a BTC wallet
is created with balance 0) — but in `sell` the sold wallet is debited
*before* the rate lookup, so a rate failure leaves the in-memory portfolio
mutated: selling 5 EUR with no stored `EUR_USD`/`USD_EUR` pair raises the
rate-unavailable error with the EUR balance already reduced from 10
to 5. -/
theorem sell_mutates_before_rate_lookup :
    buy true "USD" 300 100
        (some ⟨some [("BTC_USD", ⟨50000, some 50, "CoinGecko"⟩)], some 50⟩)
        [("USD", 100)] "BTC" 10
      = ([("USD", 100), ("BTC", 0)],
         .error (.insufficientFunds 100 "USD" 500000)) ∧
    sell true "USD" 300 100 (some ⟨some [], none⟩)
        [("USD", 100), ("EUR", 10)] "EUR" 5
      = ([("USD", 100), ("EUR", 5)],
         .error (.rateUnavailable "EUR" "USD")) := by
  constructor
  · simp +decide [buy, getCurrency, currencyRegistry, getRate, dbLoadRates,
      alGet, alSet, getOrCreateWallet, Wallet.withdraw, Wallet.deposit,
      isCacheFresh]
    norm_num
  · simp +decide [sell, getCurrency, currencyRegistry, getRate, dbLoadRates,
      alGet, alSet, Wallet.withdraw, isCacheFresh]
    norm_num

/-- C2 (on the code as written): `show_portfolio` on the portfolio
`{BTC: 0.5}` with a fresh `BTC_USD = 50000` does not return the total
`25000.0`: `Portfolio.view` calls `.get("rate")` on the `float` returned
by `RatesService.get_rate`, which raises `AttributeError`. -/
theorem showPortfolio_attributeError :
    showPortfolio true "USD" 300 100
        (some ⟨some [("BTC_USD", ⟨50000, some 50, "CoinGecko"⟩)], some 50⟩)
        [("BTC", 1/2)] none = .error .attributeError := by
  simp +decide [showPortfolio, portfolioView, getCurrency, currencyRegistry,
    getRate, dbLoadRates, alGet, isCacheFresh, floatGet, List.foldlM]

/-- C7: for any database state, registering a username that a previous
registration attempt has stored (with valid username and password) fails
with the username-taken error and returns the database unchanged — no
second user record and no second portfolio are created. -/
theorem register_duplicate_username (base : String) (db : DB)
    (u pw pw2 : String) (hu : pyStrip u ≠ "") (hp : 4 ≤ (pyStrip pw).length) :
    register base ((register base db u pw).1) u pw2
      = ((register base db u pw).1, .error (.usernameTaken u)) := by
  have hplt : ¬((pyStrip pw).length < 4) := not_lt.mpr hp
  by_cases hdup : db.users.any (fun x => x.username = u) = true
  · simp [register, createUser, hdup]
  · simp [register, createUser, portfolioAddCurrency, hdup, hu, hplt,
      List.any_append]

/-- Witness for `register_duplicate_username`: registering "alice" twice
from the empty database; the second attempt fails with the username-taken
error and leaves the database as the first attempt left it. -/
theorem register_duplicate_username_w :
    register "USD" ((register "USD" ⟨[], []⟩ "alice" "secret").1)
        "alice" "pass2"
      = ((register "USD" ⟨[], []⟩ "alice" "secret").1,
         .error (.usernameTaken "alice")) :=
  register_duplicate_username "USD" ⟨[], []⟩ "alice" "secret" "pass2"
    (by decide) (by decide)

/-- Folding the update loop over clients that all raise
`ApiRequestError` accumulates nothing. -/
theorem foldl_updStep_all_errors (ts : Int) (clients : List ClientResult)
    (acc : List (String × RateEntry) × List HistoryRecord)
    (h : ∀ c ∈ clients, ∃ r, c = Except.error r) :
    clients.foldl (updStep ts) acc = acc := by
  induction clients generalizing acc with
  | nil => rfl
  | cons c tl ih =>
      obtain ⟨r, hr⟩ := h c (List.mem_cons_self c tl)
      subst hr
      simpa [updStep] using
        ih acc (fun c hc => h c (List.mem_cons_of_mem _ hc))

/-- C4: an update cycle in which every configured client raises an API
error is a no-op: the stored snapshot (including `last_refresh`) and the
history are left completely unchanged. -/
theorem runUpdate_allFail_noop (clients : List ClientResult) (ts : Int)
    (st : StoreState) (h : ∀ c ∈ clients, ∃ r, c = Except.error r) :
    runUpdate clients ts st = st := by
  simp [runUpdate, foldl_updStep_all_errors ts clients ([], []) h]

/-- Witness for `runUpdate_allFail_noop`: both clients fail; a state with
one stored pair, a last-refresh stamp and one history record is returned
untouched. -/
theorem runUpdate_allFail_noop_w :
    runUpdate [.error "boom", .error "down"] 7
        ⟨some ⟨some [("EUR_USD", ⟨2, some 1, "old"⟩)], some 1⟩,
         [⟨"EUR_USD_1", "EUR", "USD", 2, 1, "old"⟩]⟩
      = ⟨some ⟨some [("EUR_USD", ⟨2, some 1, "old"⟩)], some 1⟩,
         [⟨"EUR_USD_1", "EUR", "USD", 2, 1, "old"⟩]⟩ :=
  runUpdate_allFail_noop _ 7 _ (by
    intro c hc
    fin_cases hc
    · exact ⟨"boom", rfl⟩
    · exact ⟨"down", rfl⟩)

/-! ### Lemmas about the update-cycle merge (claim C3) -/

theorem alSet_ne_nil {α : Type} (m : List (String × α)) (k : String) (v : α) :
    alSet m k v ≠ [] := by
  cases m with
  | nil => simp [alSet]
  | cons hd tl =>
      obtain ⟨k', v'⟩ := hd
      by_cases h : k = k' <;> simp [alSet, h]

theorem alGet_isSome_alSet {α : Type} (m : List (String × α)) (k p : String)
    (v : α) (h : (alGet m p).isSome) : (alGet (alSet m k v) p).isSome := by
  by_cases hp : p = k
  · subst hp; simp [alGet_alSet_self]
  · rwa [alGet_alSet_ne m k p v hp]

theorem mem_keys_alSet {α : Type} (m : List (String × α)) (k p : String)
    (v : α) :
    p ∈ (alSet m k v).map Prod.fst ↔ p ∈ m.map Prod.fst ∨ p = k := by
  induction m with
  | nil => simp [alSet]
  | cons hd tl ih =>
      obtain ⟨k', v'⟩ := hd
      by_cases h : k = k'
      · subst h; simp [alSet]; tauto
      · simp [alSet, h, ih]; tauto

theorem nodup_keys_alSet {α : Type} (m : List (String × α)) (k : String)
    (v : α) (h : (m.map Prod.fst).Nodup) :
    ((alSet m k v).map Prod.fst).Nodup := by
  induction m with
  | nil => simp [alSet]
  | cons hd tl ih =>
      obtain ⟨k', v'⟩ := hd
      simp only [List.map_cons, List.nodup_cons] at h
      by_cases hk : k = k'
      · subst hk; simpa [alSet] using h
      · simp only [alSet, hk, if_false, List.map_cons, List.nodup_cons,
          mem_keys_alSet]
        exact ⟨fun hc => hc.elim h.1 (fun he => hk (he.symm)), ih h.2⟩

theorem alGet_eq_none_of_not_mem_keys {α : Type} (m : List (String × α))
    (p : String) (h : p ∉ m.map Prod.fst) : alGet m p = none := by
  induction m with
  | nil => rfl
  | cons hd tl ih =>
      obtain ⟨k, v⟩ := hd
      simp only [List.map_cons, List.mem_cons] at h
      push_neg at h
      simp [alGet, h.1, ih h.2]

/-- Merging a list of entries into a base dict does not change the value
of a key the list does not bind. -/
theorem alGet_merge_of_none {α : Type} (l base : List (String × α))
    (p : String) (h : alGet l p = none) :
    alGet (l.foldl (fun m kv => alSet m kv.1 kv.2) base) p = alGet base p := by
  induction l generalizing base with
  | nil => rfl
  | cons kv tl ih =>
      obtain ⟨k, v⟩ := kv
      by_cases hp : p = k
      · simp [alGet, hp] at h
      · have htl : alGet tl p = none := by simpa [alGet, hp] using h
        rw [List.foldl_cons]
        rw [ih _ htl]
        exact alGet_alSet_ne base k p v hp

/-- Merging a key-nodup list of entries into a base dict makes every bound
key take the value the list binds it to. -/
theorem alGet_merge_of_some {α : Type} (l base : List (String × α))
    (p : String) (e : α) (hnd : (l.map Prod.fst).Nodup)
    (h : alGet l p = some e) :
    alGet (l.foldl (fun m kv => alSet m kv.1 kv.2) base) p = some e := by
  induction l generalizing base with
  | nil => simp [alGet] at h
  | cons kv tl ih =>
      obtain ⟨k, v⟩ := kv
      simp only [List.map_cons, List.nodup_cons] at hnd
      by_cases hp : p = k
      · subst hp
        have hv : v = e := by simpa [alGet] using h
        subst hv
        have htl : alGet tl p = none :=
          alGet_eq_none_of_not_mem_keys tl p hnd.1
        rw [List.foldl_cons, alGet_merge_of_none tl _ p htl]
        exact alGet_alSet_self base p v
      · have htl : alGet tl p = some e := by simpa [alGet, hp] using h
        rw [List.foldl_cons]
        exact ih _ hnd.2 htl

/-- Every entry accumulated by the update loop carries the cycle
timestamp. -/
theorem inner_fold_ts (ts : Int) (src : String) (rates : List (String × ℚ))
    (acc : List (String × RateEntry))
    (hacc : ∀ p e, alGet acc p = some e → e.updated_at = some ts) :
    ∀ p e,
      alGet (rates.foldl
        (fun m pr => alSet m pr.1 ⟨pr.2, some ts, src⟩) acc) p = some e →
      e.updated_at = some ts := by
  induction rates generalizing acc with
  | nil => exact hacc
  | cons pr tl ih =>
      rw [List.foldl_cons]
      refine ih _ ?_
      intro p e h
      by_cases hp : p = pr.1
      · subst hp
        rw [alGet_alSet_self] at h
        cases h
        rfl
      · rw [alGet_alSet_ne _ _ _ _ hp] at h
        exact hacc p e h

theorem outer_fold_ts (ts : Int) (clients : List ClientResult)
    (acc : List (String × RateEntry) × List HistoryRecord)
    (hacc : ∀ p e, alGet acc.1 p = some e → e.updated_at = some ts) :
    ∀ p e, alGet (clients.foldl (updStep ts) acc).1 p = some e →
      e.updated_at = some ts := by
  induction clients generalizing acc with
  | nil => exact hacc
  | cons c tl ih =>
      rw [List.foldl_cons]
      cases c with
      | error r => exact ih _ hacc
      | ok sr =>
          obtain ⟨src, rates⟩ := sr
          exact ih _ (inner_fold_ts ts src rates acc.1 hacc)

theorem inner_fold_preserves_isSome (ts : Int) (src : String)
    (rates : List (String × ℚ)) (acc : List (String × RateEntry))
    (p : String) (h : (alGet acc p).isSome) :
    (alGet (rates.foldl
      (fun m pr => alSet m pr.1 ⟨pr.2, some ts, src⟩) acc) p).isSome := by
  induction rates generalizing acc with
  | nil => exact h
  | cons pr tl ih =>
      rw [List.foldl_cons]
      exact ih _ (alGet_isSome_alSet _ _ _ _ h)

theorem inner_fold_presence (ts : Int) (src : String)
    (rates : List (String × ℚ)) (acc : List (String × RateEntry))
    (p : String) (r : ℚ) (h : (p, r) ∈ rates) :
    (alGet (rates.foldl
      (fun m pr => alSet m pr.1 ⟨pr.2, some ts, src⟩) acc) p).isSome := by
  induction rates generalizing acc with
  | nil => cases h
  | cons pr tl ih =>
      rw [List.foldl_cons]
      rcases List.mem_cons.mp h with heq | hmem
      · cases heq
        exact inner_fold_preserves_isSome ts src tl _ p
          (by simp [alGet_alSet_self])
      · exact ih _ hmem

theorem outer_fold_preserves_isSome (ts : Int) (clients : List ClientResult)
    (acc : List (String × RateEntry) × List HistoryRecord) (p : String)
    (h : (alGet acc.1 p).isSome) :
    (alGet (clients.foldl (updStep ts) acc).1 p).isSome := by
  induction clients generalizing acc with
  | nil => exact h
  | cons c tl ih =>
      rw [List.foldl_cons]
      cases c with
      | error r => exact ih _ h
      | ok sr =>
          obtain ⟨src, rates⟩ := sr
          exact ih _ (inner_fold_preserves_isSome ts src rates acc.1 p h)

theorem outer_fold_presence (ts : Int) (clients : List ClientResult)
    (acc : List (String × RateEntry) × List HistoryRecord) (src : String)
    (rates : List (String × ℚ)) (p : String) (r : ℚ)
    (hc : Except.ok (src, rates) ∈ clients) (hm : (p, r) ∈ rates) :
    (alGet (clients.foldl (updStep ts) acc).1 p).isSome := by
  induction clients generalizing acc with
  | nil => cases hc
  | cons c tl ih =>
      rw [List.foldl_cons]
      rcases List.mem_cons.mp hc with heq | hmem
      · cases heq
        exact outer_fold_preserves_isSome ts tl _ p
          (inner_fold_presence ts src rates acc.1 p r hm)
      · exact ih _ hmem

theorem inner_fold_absent (ts : Int) (src : String)
    (rates : List (String × ℚ)) (acc : List (String × RateEntry))
    (p : String) (h : p ∉ rates.map Prod.fst) :
    alGet (rates.foldl
      (fun m pr => alSet m pr.1 ⟨pr.2, some ts, src⟩) acc) p = alGet acc p := by
  induction rates generalizing acc with
  | nil => rfl
  | cons pr tl ih =>
      simp only [List.map_cons, List.mem_cons] at h
      push_neg at h
      rw [List.foldl_cons, ih _ h.2, alGet_alSet_ne _ _ _ _ h.1]

theorem outer_fold_absent (ts : Int) (clients : List ClientResult)
    (acc : List (String × RateEntry) × List HistoryRecord) (p : String)
    (h : ∀ src rates, Except.ok (src, rates) ∈ clients →
      p ∉ rates.map Prod.fst) :
    alGet (clients.foldl (updStep ts) acc).1 p = alGet acc.1 p := by
  induction clients generalizing acc with
  | nil => rfl
  | cons c tl ih =>
      rw [List.foldl_cons]
      cases c with
      | error r =>
          exact ih _ (fun src rates hm => h src rates
            (List.mem_cons_of_mem _ hm))
      | ok sr =>
          obtain ⟨src, rates⟩ := sr
          rw [ih _ (fun s rs hm => h s rs (List.mem_cons_of_mem _ hm))]
          exact inner_fold_absent ts src rates acc.1 p
            (h src rates (List.mem_cons_self _ _))

theorem inner_fold_nodup (ts : Int) (src : String)
    (rates : List (String × ℚ)) (acc : List (String × RateEntry))
    (h : (acc.map Prod.fst).Nodup) :
    ((rates.foldl
      (fun m pr => alSet m pr.1 ⟨pr.2, some ts, src⟩) acc).map
        Prod.fst).Nodup := by
  induction rates generalizing acc with
  | nil => exact h
  | cons pr tl ih =>
      rw [List.foldl_cons]
      exact ih _ (nodup_keys_alSet _ _ _ h)

theorem outer_fold_nodup (ts : Int) (clients : List ClientResult)
    (acc : List (String × RateEntry) × List HistoryRecord)
    (h : (acc.1.map Prod.fst).Nodup) :
    (((clients.foldl (updStep ts) acc).1).map Prod.fst).Nodup := by
  induction clients generalizing acc with
  | nil => exact h
  | cons c tl ih =>
      rw [List.foldl_cons]
      cases c with
      | error r => exact ih _ h
      | ok sr =>
          obtain ⟨src, rates⟩ := sr
          exact ih _ (inner_fold_nodup ts src rates acc.1 h)

theorem inner_fold_ne_nil (ts : Int) (src : String)
    (rates : List (String × ℚ)) (acc : List (String × RateEntry))
    (h : acc ≠ [] ∨ rates ≠ []) :
    rates.foldl (fun m pr => alSet m pr.1 ⟨pr.2, some ts, src⟩) acc ≠ [] := by
  induction rates generalizing acc with
  | nil =>
      rcases h with h | h
      · exact h
      · exact absurd rfl h
  | cons pr tl ih =>
      rw [List.foldl_cons]
      exact ih _ (Or.inl (alSet_ne_nil _ _ _))

theorem outer_fold_ne_nil (ts : Int) (clients : List ClientResult)
    (acc : List (String × RateEntry) × List HistoryRecord)
    (h : acc.1 ≠ [] ∨
      ∃ src rates, Except.ok (src, rates) ∈ clients ∧ rates ≠ []) :
    (clients.foldl (updStep ts) acc).1 ≠ [] := by
  induction clients generalizing acc with
  | nil =>
      rcases h with h | ⟨src, rates, hmem, _⟩
      · exact h
      · cases hmem
  | cons c tl ih =>
      rw [List.foldl_cons]
      rcases h with h | ⟨src, rates, hmem, hne⟩
      · refine ih _ (Or.inl ?_)
        cases c with
        | error r => exact h
        | ok sr =>
            obtain ⟨src, rates⟩ := sr
            exact inner_fold_ne_nil ts src rates acc.1 (Or.inl h)
      · rcases List.mem_cons.mp hmem with heq | hmem2
        · cases heq
          exact ih _ (Or.inl
            (inner_fold_ne_nil ts src rates acc.1 (Or.inr hne)))
        · exact ih _ (Or.inr ⟨src, rates, hmem2, hne⟩)

/-- C3: in every update cycle in which at least one configured client
succeeds (every configured client returns a non-empty pair map on
success), the saved snapshot binds every pair returned by a successful
client to an entry stamped with the cycle timestamp, leaves every pair no
source returned this cycle at its previous value, and sets `last_refresh`
to the cycle timestamp. -/
theorem runUpdate_merge (clients : List ClientResult) (ts : Int)
    (st : StoreState) (src0 : String) (rates0 : List (String × ℚ))
    (hmem : Except.ok (src0, rates0) ∈ clients) (hne : rates0 ≠ []) :
    ∃ merged,
      (runUpdate clients ts st).ratesFile = some ⟨some merged, some ts⟩ ∧
      (∀ src rates, Except.ok (src, rates) ∈ clients →
        ∀ p r, (p, r) ∈ rates →
          ∃ e, alGet merged p = some e ∧ e.updated_at = some ts) ∧
      (∀ p, (∀ src rates, Except.ok (src, rates) ∈ clients →
          p ∉ rates.map Prod.fst) →
        alGet merged p =
          alGet ((storageLoadRates st.ratesFile).pairs.getD []) p) := by
  have hcne : (clients.foldl (updStep ts) ([], [])).1 ≠ [] :=
    outer_fold_ne_nil ts clients ([], [])
      (Or.inr ⟨src0, rates0, hmem, hne⟩)
  have hempty : (clients.foldl (updStep ts) ([], [])).1.isEmpty = false := by
    cases hc : (clients.foldl (updStep ts) ([], [])).1 with
    | nil => exact absurd hc hcne
    | cons hd tl => rfl
  refine ⟨(clients.foldl (updStep ts) ([], [])).1.foldl
      (fun m kv => alSet m kv.1 kv.2)
      ((storageLoadRates st.ratesFile).pairs.getD []), ?_, ?_, ?_⟩
  · simp only [runUpdate, hempty, Bool.false_eq_true, if_false]
  · intro src rates hc p r hm
    have hsome :=
      outer_fold_presence ts clients ([], []) src rates p r hc hm
    obtain ⟨e, he⟩ := Option.isSome_iff_exists.mp hsome
    refine ⟨e, ?_, ?_⟩
    · exact alGet_merge_of_some _ _ p e
        (outer_fold_nodup ts clients ([], []) (by simp)) he
    · exact outer_fold_ts ts clients ([], [])
        (by intro q e' h'; simp [alGet] at h') p e he
  · intro p habs
    have hnone : alGet (clients.foldl (updStep ts) ([], [])).1 p = none := by
      rw [outer_fold_absent ts clients ([], []) p habs]
      rfl
    exact alGet_merge_of_none _ _ p hnone

/-- Witness for `runUpdate_merge`: of two configured clients the first
raises an API error and the second returns `BTC_USD = 50000`; the cycle
(timestamp 7) still persists a snapshot whose `last_refresh` is 7, whose
`BTC_USD` entry is stamped 7, and whose untouched `EUR_USD` entry keeps
its previous value. -/
theorem runUpdate_merge_w :
    ∃ merged,
      (runUpdate [.error "boom", .ok ("CoinGecko", [("BTC_USD", 50000)])] 7
        ⟨some ⟨some [("EUR_USD", ⟨2, some 1, "old"⟩)], some 1⟩,
         []⟩).ratesFile = some ⟨some merged, some 7⟩ ∧
      (∀ src rates,
        Except.ok (src, rates) ∈
          ([.error "boom",
            .ok ("CoinGecko", [("BTC_USD", 50000)])] : List ClientResult) →
        ∀ p r, (p, r) ∈ rates →
          ∃ e, alGet merged p = some e ∧ e.updated_at = some 7) ∧
      (∀ p, (∀ src rates,
          Except.ok (src, rates) ∈
            ([.error "boom",
              .ok ("CoinGecko", [("BTC_USD", 50000)])] : List ClientResult) →
          p ∉ rates.map Prod.fst) →
        alGet merged p =
          alGet ((storageLoadRates (some ⟨some
            [("EUR_USD", ⟨2, some 1, "old"⟩)], some 1⟩)).pairs.getD []) p) :=
  runUpdate_merge _ 7 _ "CoinGecko" [("BTC_USD", 50000)]
    (by simp) (by simp)

end ValutaTrade
